import Mathlib

/-!
Verification of scripts/update-appcast.py (claude-island-web).

The script is shallowly embedded: the process environment is a partial map
from variable names to strings, XML elements are a tree of tag, attribute
list, optional text and child list, and the fallible steps return Except.
Machine side effects (reading and writing the appcast file) are made
explicit: update_appcast takes the parsed document as an argument and
returns either an error (the file is left untouched) or the document that
is written back.  The pubDate field depends on the real clock, so the
formatted timestamp is passed in as an argument (the spec notes that
callers needing determinism must inject a clock).
-/

namespace Appcast

/-! ## Constants (source lines 34-37) -/

def SPARKLE_NS : String := "http://www.andymatuschak.org/xml-namespaces/sparkle"

def DC_NS : String := "http://purl.org/dc/elements/1.1/"

def MAX_VERSIONS : Nat := 10

/-- ElementTree spells a namespaced tag as the namespace URI in braces
followed by the local name. -/
def nsTag (ns name : String) : String := "\x7b" ++ ns ++ "\x7d" ++ name

/-! ## Python integer literal parsing

The script validates FILE_SIZE with the Python builtin int applied to a
string.  That parser strips surrounding whitespace, allows one leading
sign, and then requires a nonempty run of decimal digits in which single
underscores may appear between two digits.  (Unicode decimal digits other
than the ASCII ones are abstracted away; no claim depends on them.) -/

/-- Characters stripped by the Python str.strip and str.rstrip methods
(the str.isspace set). -/
def pyIsSpace (c : Char) : Bool :=
  c = ' ' || c = '\t' || c = '\x0a' || c = '\x0d' || c = '\x0b' || c = '\x0c' ||
  c = '\x1c' || c = '\x1d' || c = '\x1e' || c = '\x1f' || c = '\x85' || c = '\xa0' ||
  c = '\u1680' || ('\u2000' <= c && c <= '\u200a') || c = '\u2028' || c = '\u2029' ||
  c = '\u202f' || c = '\u205f' || c = '\u3000'

/-- Strip leading and trailing whitespace, as Python str.strip does. -/
def pyStrip (s : List Char) : List Char :=
  ((s.dropWhile pyIsSpace).reverse.dropWhile pyIsSpace).reverse

/-- After an initial digit: further digits, with single underscores
allowed only between two digits. -/
def pyDigitsRest : List Char → Bool
  | [] => true
  | '_' :: c :: cs => c.isDigit && pyDigitsRest cs
  | ['_'] => false
  | c :: cs => c.isDigit && pyDigitsRest cs

/-- A nonempty digit run with optional grouping underscores. -/
def pyDigitRun : List Char → Bool
  | [] => false
  | c :: cs => c.isDigit && pyDigitsRest cs

/-- Drop one optional leading sign. -/
def pyDropSign : List Char → List Char
  | '+' :: cs => cs
  | '-' :: cs => cs
  | cs => cs

/-- Whether the Python builtin int accepts the string (no exception). -/
def pyIntParsable (s : String) : Bool :=
  pyDigitRun (pyDropSign (pyStrip s.data))

/-- Numeric value of a digit-and-underscore run. -/
def pyDigitsVal (cs : List Char) : Nat :=
  cs.foldl (fun acc c => if c = '_' then acc else acc * 10 + (c.toNat - '0'.toNat)) 0

/-- The integer the Python builtin int returns on a parsable string. -/
def pyIntValue (s : String) : Int :=
  match pyStrip s.data with
  | '-' :: cs => -(pyDigitsVal cs : Int)
  | '+' :: cs => (pyDigitsVal cs : Int)
  | cs => (pyDigitsVal cs : Int)

/-- Modelled from the spec words for FILE_SIZE ("must parse as a
non-negative integer"): the string is accepted by the Python int parser
and the parsed value is not negative.  Kept separate from pyIntParsable
(the check the code performs) so the two can be compared. -/
def parsesAsNonNegativeInteger (s : String) : Bool :=
  pyIntParsable s && decide (0 ≤ pyIntValue s)

/-! ## Configuration (source lines 44-111) -/

/-- The process environment: a partial map from variable names to values.
A variable that is set to the empty string maps to some "". -/
def Env : Type := String → Option String

/-- ReleaseConfig dataclass (source lines 59-77). -/
structure ReleaseConfig where
  version : String
  build_number : String
  download_url : String
  ed_signature : String
  file_size : String
  min_system_version : String
deriving DecidableEq, Repr

/-- The AppcastError exception.  The source has a single exception class
carrying a message string; the three construction sites are kept apart as
constructors so that statements can talk about which failure occurred,
and message reproduces the exact string each site formats. -/
inductive AppcastError where
  | missingEnv (key : String)
  | badFileSize (value : String)
  | noChannel
deriving DecidableEq, Repr

/-- Python repr of a string, as used by the f-string conversion in the
FILE_SIZE error message.  Quote and escape handling is abstracted: the
model wraps the value in single quotes, which agrees with Python for
values free of quotes, backslashes and control characters. -/
def pyReprStr (s : String) : String := "\x27" ++ s ++ "\x27"

def AppcastError.message : AppcastError → String
  | .missingEnv key => "Missing required environment variable: " ++ key
  | .badFileSize value => "FILE_SIZE must be a valid integer, got: " ++ pyReprStr value
  | .noChannel => "No <channel> element found in appcast.xml"

/-- load_config_from_env (source lines 80-111).  The three required keys
are looked up in program order, so the first missing one is reported;
FILE_SIZE defaults to "0" and is validated with the Python int parser but
stored as the original string. -/
def load_config_from_env (env : Env) : Except AppcastError ReleaseConfig :=
  match env "VERSION" with
  | none => .error (.missingEnv "VERSION")
  | some version =>
    match env "BUILD_NUMBER" with
    | none => .error (.missingEnv "BUILD_NUMBER")
    | some build_number =>
      match env "DOWNLOAD_URL" with
      | none => .error (.missingEnv "DOWNLOAD_URL")
      | some download_url =>
        let file_size := (env "FILE_SIZE").getD "0"
        if pyIntParsable file_size then
          .ok { version := version
                build_number := build_number
                download_url := download_url
                ed_signature := (env "ED_SIGNATURE").getD ""
                file_size := file_size
                min_system_version := (env "MIN_SYSTEM_VERSION").getD "15.6" }
        else
          .error (.badFileSize file_size)

/-! ## XML elements

An ElementTree element: tag, attribute list (attribute dictionaries keep
insertion order, modelled as an association list), optional text, and the
ordered list of children.  Tails and the xml declaration play no role in
any claim and are not modelled. -/

inductive Element : Type where
  | mk : String → List (String × String) → Option String → List Element → Element

def Element.tag : Element → String
  | .mk t _ _ _ => t

def Element.attrib : Element → List (String × String)
  | .mk _ a _ _ => a

def Element.text : Element → Option String
  | .mk _ _ x _ => x

def Element.children : Element → List Element
  | .mk _ _ _ cs => cs

def Element.withChildren : Element → List Element → Element
  | .mk t a x _, cs => .mk t a x cs

/-- Whether a child carries the plain item tag. -/
def isItem (c : Element) : Bool := c.tag = "item"

/-- Element.find with a plain tag: the first direct child with that tag. -/
def Element.find (e : Element) (t : String) : Option Element :=
  e.children.find? (fun c => c.tag = t)

/-- Element.findall with a plain tag: all direct children with that tag,
in document order. -/
def Element.findall (e : Element) (t : String) : List Element :=
  e.children.filter (fun c => c.tag = t)

/-- Python list.insert semantics: insert before position n, clamping an
out-of-range index to an append. -/
def insertAt : Nat → Element → List Element → List Element
  | 0, x, l => x :: l
  | _ + 1, x, [] => [x]
  | n + 1, x, c :: cs => c :: insertAt n x cs

/-- create_release_item (source lines 114-143).  The formatted pubDate
string is injected as the now argument.  All six children are appended in
program order; the enclosure attribute dictionary holds url, length and
type in insertion order, followed by the namespaced signature attribute
only when the supplied signature is nonempty (Python string truthiness). -/
def create_release_item (config : ReleaseConfig) (now : String) : Element :=
  .mk "item" [] none
    [ .mk "title" [] (some ("Version " ++ config.version)) [],
      .mk "pubDate" [] (some now) [],
      .mk (nsTag SPARKLE_NS "version") [] (some config.build_number) [],
      .mk (nsTag SPARKLE_NS "shortVersionString") [] (some config.version) [],
      .mk (nsTag SPARKLE_NS "minimumSystemVersion") [] (some config.min_system_version) [],
      .mk "enclosure"
        ([("url", config.download_url),
          ("length", config.file_size),
          ("type", "application/octet-stream")] ++
         (if config.ed_signature = "" then []
          else [(nsTag SPARKLE_NS "edSignature", config.ed_signature)]))
        none [] ]

/-- Children of a channel after the removal loop of prune_old_items: the
items past the first budget item children are removed, every other child
is kept.  The source removes exactly the element objects all_items
beyond index max_items with channel.remove, which compares by object
identity; since those objects are the item-tagged children at item
ordinal at least max_items, the removal is positional. -/
def keepBudget : Nat → List Element → List Element
  | _, [] => []
  | n, c :: cs =>
    if isItem c then
      match n with
      | 0 => keepBudget 0 cs
      | m + 1 => c :: keepBudget m cs
    else
      c :: keepBudget n cs

/-- prune_old_items (source lines 146-156). -/
def prune_old_items (channel : Element) (max_items : Nat := MAX_VERSIONS) : Element :=
  let all_items := channel.findall "item"
  if max_items < all_items.length then
    channel.withChildren (keepBudget max_items channel.children)
  else
    channel

/-- Insertion step of update_appcast (source lines 184-189): put the new
item immediately before the first existing item child if any item exists
(the walrus condition is Python truthiness, that is non-emptiness),
otherwise append it at the end of the children.  The list index of the
first found item among the children is the position of the first
item-tagged child, because element equality in Python is object
identity. -/
def insertNewItem (channel_elem : Element) (item : Element) : Element :=
  if (channel_elem.findall "item").isEmpty then
    channel_elem.withChildren (channel_elem.children ++ [item])
  else
    channel_elem.withChildren
      (insertAt (channel_elem.children.findIdx isItem) item channel_elem.children)

/-- Replace the first channel-tagged child: the in-place mutation of the
element returned by root.find applied to the root child list. -/
def replaceChannel : List Element → Element → List Element
  | [], _ => []
  | c :: cs, x => if c.tag = "channel" then x :: cs else c :: replaceChannel cs x

/-- update_appcast (source lines 159-200).  The parsed document root is
an argument and the produced value is the document that is then written
back; an error result means the file is left exactly as it was.  The
configuration is loaded before the file is touched (source line 173
precedes the parse at line 175), which the model reflects by returning
the configuration error irrespective of the document argument. -/
def update_appcast (env : Env) (root : Element) (now : String) : Except AppcastError Element :=
  match load_config_from_env env with
  | .error e => .error e
  | .ok config =>
    match root.find "channel" with
    | none => .error .noChannel
    | some channel_elem =>
      let item := create_release_item config now
      let channel2 := insertNewItem channel_elem item
      let channel3 := prune_old_items channel2
      .ok (root.withChildren (replaceChannel root.children channel3))

/-- The item list of the channel of the updated document, when the update
succeeded. -/
def updatedItems (env : Env) (root : Element) (now : String) : Option (List Element) :=
  match update_appcast env root now with
  | .error _ => none
  | .ok r =>
    match r.find "channel" with
    | none => none
    | some ch => some (ch.findall "item")

/-- The channel of the updated document, when the update succeeded. -/
def updatedChannel (env : Env) (root : Element) (now : String) : Option Element :=
  match update_appcast env root now with
  | .error _ => none
  | .ok r => r.find "channel"

/-! ## Output post-processing (source lines 196-200)

After the structural write the script reads the file back, splits it with
str.splitlines, strips trailing whitespace from every line with
str.rstrip, and writes the lines joined by newlines plus one final
newline.  File contents are modelled as character lists. -/

/-- Line boundary characters of the Python str.splitlines method (the
carriage-return and line-feed pair additionally counts as one boundary). -/
def isLineBoundary (c : Char) : Bool :=
  c = '\x0a' || c = '\x0d' || c = '\x0b' || c = '\x0c' ||
  c = '\x1c' || c = '\x1d' || c = '\x1e' || c = '\x85' ||
  c = '\u2028' || c = '\u2029'

/-- Python str.splitlines: the maximal boundary-free runs, without the
terminators; a trailing terminator opens no empty final line. -/
def pySplitLines : List Char → List (List Char)
  | [] => []
  | [c] => if isLineBoundary c then [[]] else [[c]]
  | c :: d :: rest =>
    if c = '\x0d' ∧ d = '\x0a' then
      [] :: pySplitLines rest
    else if isLineBoundary c then
      [] :: pySplitLines (d :: rest)
    else
      match pySplitLines (d :: rest) with
      | [] => [[c]]
      | l :: ls => (c :: l) :: ls

/-- Python str.rstrip with no argument: drop trailing whitespace. -/
def pyRstrip (l : List Char) : List Char :=
  (l.reverse.dropWhile pyIsSpace).reverse

/-- Join lines with single newlines, as the str.join call does. -/
def joinLines : List (List Char) → List Char
  | [] => []
  | [l] => l
  | l :: ls => l ++ '\x0a' :: joinLines ls

/-- The content written at source line 200, as a function of the content
the structural write produced. -/
def postProcess (content : List Char) : List Char :=
  joinLines ((pySplitLines content).map pyRstrip) ++ ['\x0a']

/-- Checks that no line of a file has trailing whitespace: stripping is
the identity on every line. -/
def noTrailingWS (out : List Char) : Bool :=
  (pySplitLines out).all (fun l => pyRstrip l == l)

/-- Checks that a file ends with exactly one trailing newline: the last
character is a newline and the character before it, if any, is not. -/
def endsWithOneNewline (out : List Char) : Bool :=
  match out.reverse with
  | '\x0a' :: rest =>
    match rest with
    | [] => true
    | z :: _ => !(z = '\x0a')
  | _ => false

/-! ## Concrete fixtures used by the witnesses -/

/-- An environment with the three required variables set and nothing
else. -/
def envRequiredOnly : Env := fun k =>
  if k = "VERSION" then some "1.2.3"
  else if k = "BUILD_NUMBER" then some "202601251200"
  else if k = "DOWNLOAD_URL" then some "https://example.com/app.zip"
  else none

/-- The configuration envRequiredOnly loads. -/
def cfgRequiredOnly : ReleaseConfig :=
  { version := "1.2.3", build_number := "202601251200",
    download_url := "https://example.com/app.zip", ed_signature := "",
    file_size := "0", min_system_version := "15.6" }

/-- An environment missing BUILD_NUMBER. -/
def envMissingBuild : Env := fun k =>
  if k = "VERSION" then some "1.2.3"
  else if k = "DOWNLOAD_URL" then some "https://example.com/app.zip"
  else none

/-- An environment whose FILE_SIZE parses as a negative integer. -/
def envNegSize : Env := fun k =>
  if k = "VERSION" then some "1.0.0"
  else if k = "BUILD_NUMBER" then some "100"
  else if k = "DOWNLOAD_URL" then some "https://example.com/a.zip"
  else if k = "FILE_SIZE" then some "-3"
  else none

/-- An environment whose FILE_SIZE is not a number at all. -/
def envBadSize : Env := fun k =>
  if k = "VERSION" then some "1.0.0"
  else if k = "BUILD_NUMBER" then some "100"
  else if k = "DOWNLOAD_URL" then some "https://example.com/a.zip"
  else if k = "FILE_SIZE" then some "abc"
  else none

/-- An environment in which VERSION is set to the empty string. -/
def envEmptyVersion : Env := fun k =>
  if k = "VERSION" then some ""
  else if k = "BUILD_NUMBER" then some "100"
  else if k = "DOWNLOAD_URL" then some "https://example.com/a.zip"
  else none

/-- An environment with every variable set; FILE_SIZE carries a sign and
surrounding whitespace that the Python int parser accepts. -/
def envFull : Env := fun k =>
  if k = "VERSION" then some "2.0.0"
  else if k = "BUILD_NUMBER" then some "202601251201"
  else if k = "DOWNLOAD_URL" then some "https://example.com/b.zip"
  else if k = "ED_SIGNATURE" then some "c2lnbmF0dXJl"
  else if k = "FILE_SIZE" then some " +5 "
  else if k = "MIN_SYSTEM_VERSION" then some "26.0"
  else none

/-- A document root with no channel child. -/
def rootNoChannel : Element := .mk "rss" [] none [.mk "other" [] none []]

/-- A channel with leading metadata, two items and trailing metadata. -/
def channelTwo : Element :=
  .mk "channel" [] none
    [ .mk "title" [] (some "Claude Island") [],
      .mk "description" [] (some "Releases") [],
      .mk "item" [] (some "old1") [],
      .mk "item" [] (some "old2") [],
      .mk "language" [] (some "en") [] ]

/-- A document root holding channelTwo. -/
def rootTwo : Element := .mk "rss" [] none [channelTwo]

/-! ## Helper lemmas -/

theorem children_withChildren (e : Element) (l : List Element) :
    (e.withChildren l).children = l := by
  cases e
  rfl

theorem tag_withChildren (e : Element) (l : List Element) :
    (e.withChildren l).tag = e.tag := by
  cases e
  rfl

theorem pyIntParsable_zero : pyIntParsable "0" = true := by decide

/-- The loader on an environment with all three required keys present. -/
theorem load_config_required_present (env : Env) (v b d : String)
    (hv : env "VERSION" = some v) (hb : env "BUILD_NUMBER" = some b)
    (hd : env "DOWNLOAD_URL" = some d)
    (hp : pyIntParsable ((env "FILE_SIZE").getD "0") = true) :
    load_config_from_env env
      = .ok { version := v, build_number := b, download_url := d,
              ed_signature := (env "ED_SIGNATURE").getD "",
              file_size := (env "FILE_SIZE").getD "0",
              min_system_version := (env "MIN_SYSTEM_VERSION").getD "15.6" } := by
  simp [load_config_from_env, hv, hb, hd, hp]

theorem findall_item_eq_filter (e : Element) :
    e.findall "item" = e.children.filter isItem := rfl

theorem isItem_create_release_item (c : ReleaseConfig) (now : String) :
    isItem (create_release_item c now) = true := rfl

theorem keepBudget_filter_item (n : Nat) (l : List Element) :
    (keepBudget n l).filter isItem = (l.filter isItem).take n := by
  induction l generalizing n with
  | nil => simp [keepBudget]
  | cons c cs ih =>
    by_cases hc : isItem c
    · cases n with
      | zero => simp [keepBudget, hc, ih]
      | succ m => simp [keepBudget, hc, ih, List.filter_cons]
    · simp [keepBudget, hc, ih, List.filter_cons]

theorem keepBudget_filter_not_item (n : Nat) (l : List Element) :
    (keepBudget n l).filter (fun c => !(isItem c)) = l.filter (fun c => !(isItem c)) := by
  induction l generalizing n with
  | nil => simp [keepBudget]
  | cons c cs ih =>
    by_cases hc : isItem c
    · cases n with
      | zero => simp [keepBudget, hc, ih, List.filter_cons]
      | succ m => simp [keepBudget, hc, ih, List.filter_cons]
    · simp [keepBudget, hc, ih, List.filter_cons]

theorem keepBudget_append_of_no_items (a r : List Element) (n : Nat)
    (ha : ∀ c ∈ a, isItem c = false) :
    keepBudget n (a ++ r) = a ++ keepBudget n r := by
  induction a with
  | nil => rfl
  | cons c cs ih =>
    have hc : isItem c = false := ha c (List.mem_cons_self c cs)
    simp only [List.cons_append, keepBudget, hc, Bool.false_eq_true, if_false, List.cons.injEq,
      true_and]
    exact ih (fun x hx => ha x (List.mem_cons_of_mem c hx))

theorem keepBudget_cons_item (n : Nat) (c : Element) (cs : List Element)
    (hc : isItem c = true) :
    keepBudget (n + 1) (c :: cs) = c :: keepBudget n cs := by
  simp [keepBudget, hc]

theorem insertAt_length_append (a : List Element) (x : Element) (r : List Element) :
    insertAt a.length x (a ++ r) = a ++ x :: r := by
  induction a with
  | nil => rfl
  | cons c cs ih => simp [insertAt, ih]

theorem filter_insertAt_findIdx (x : Element) (l : List Element) (hx : isItem x = true) :
    (insertAt (l.findIdx isItem) x l).filter isItem = x :: l.filter isItem := by
  induction l with
  | nil => simp [insertAt, List.filter, hx]
  | cons c cs ih =>
    by_cases hc : isItem c
    · simp [List.findIdx_cons, hc, insertAt, List.filter_cons, hx]
    · simp [List.findIdx_cons, hc, insertAt, List.filter_cons, ih]

theorem filter_not_insertAt (x : Element) (l : List Element) (n : Nat)
    (hx : isItem x = true) :
    (insertAt n x l).filter (fun c => !(isItem c)) = l.filter (fun c => !(isItem c)) := by
  induction l generalizing n with
  | nil => cases n <;> simp [insertAt, hx]
  | cons c cs ih =>
    cases n with
    | zero => simp [insertAt, hx, List.filter_cons]
    | succ m => simp [insertAt, List.filter_cons, ih]

/-- Decompose a list at its first element satisfying the predicate. -/
theorem filter_eq_cons_decomp (p : Element → Bool) (l : List Element) (x : Element)
    (rest : List Element) (h : l.filter p = x :: rest) :
    ∃ a b, l = a ++ x :: b ∧ (∀ c ∈ a, p c = false) ∧ l.findIdx p = a.length
      ∧ b.filter p = rest := by
  induction l with
  | nil => simp at h
  | cons c cs ih =>
    by_cases hc : p c
    · rw [List.filter_cons_of_pos hc] at h
      injection h with h1 h2
      exact ⟨[], cs, by simp [h1], by simp, by simp [List.findIdx_cons, hc], h2⟩
    · have hcf : p c = false := by simpa using hc
      rw [List.filter_cons_of_neg hc] at h
      obtain ⟨a, b, h1, h2, h3, h4⟩ := ih h
      refine ⟨c :: a, b, by simp [h1], ?_, ?_, h4⟩
      · intro e he
        rcases List.mem_cons.mp he with rfl | he2
        · exact hcf
        · exact h2 e he2
      · simp [List.findIdx_cons, hcf, h3]

theorem find_replaceChannel (l : List Element) (c x : Element)
    (h : l.find? (fun e => e.tag = "channel") = some c)
    (hx : x.tag = "channel") :
    (replaceChannel l x).find? (fun e => e.tag = "channel") = some x := by
  induction l with
  | nil => simp at h
  | cons e es ih =>
    by_cases he : e.tag = "channel"
    · rw [replaceChannel, if_pos he]
      exact List.find?_cons_of_pos _ (by simp [hx])
    · rw [replaceChannel, if_neg he]
      rw [List.find?_cons_of_neg _ (by simpa using he)]
      rw [List.find?_cons_of_neg _ (by simpa using he)] at h
      exact ih h

theorem tag_insertNewItem (channel x : Element) :
    (insertNewItem channel x).tag = channel.tag := by
  rw [insertNewItem]
  split <;> exact tag_withChildren _ _

theorem tag_prune_old_items (channel : Element) (n : Nat) :
    (prune_old_items channel n).tag = channel.tag := by
  simp only [prune_old_items]
  split
  · exact tag_withChildren _ _
  · rfl

/-- Item list of a channel after inserting a new item and pruning: the
new item first, then the first MAX_VERSIONS - 1 of the old items. -/
theorem inserted_pruned_items (channel x : Element) (hx : isItem x = true) :
    (prune_old_items (insertNewItem channel x)).findall "item"
      = x :: (channel.findall "item").take (MAX_VERSIONS - 1) := by
  by_cases he : (channel.findall "item").isEmpty
  · have honil : channel.children.filter isItem = [] := by
      rw [← findall_item_eq_filter]
      exact List.isEmpty_iff.mp he
    have h2 : (insertNewItem channel x).findall "item" = [x] := by
      simp [insertNewItem, he, findall_item_eq_filter, children_withChildren,
        List.filter_append, honil, List.filter_cons, hx]
    have h3 : prune_old_items (insertNewItem channel x) = insertNewItem channel x := by
      simp [prune_old_items, h2, MAX_VERSIONS]
    rw [h3, h2, findall_item_eq_filter, honil]
    rfl
  · have h2 : (insertNewItem channel x).findall "item"
        = x :: channel.children.filter isItem := by
      rw [insertNewItem, if_neg he, findall_item_eq_filter, children_withChildren]
      exact filter_insertAt_findIdx x channel.children hx
    by_cases hg : MAX_VERSIONS < ((insertNewItem channel x).findall "item").length
    · have h3 : prune_old_items (insertNewItem channel x)
          = (insertNewItem channel x).withChildren
              (keepBudget MAX_VERSIONS (insertNewItem channel x).children) := by
        simp [prune_old_items, hg]
      rw [h3, findall_item_eq_filter, children_withChildren, keepBudget_filter_item,
        ← findall_item_eq_filter, h2, findall_item_eq_filter]
      rw [show (MAX_VERSIONS : Nat) = 9 + 1 from rfl, List.take_succ_cons]
    · have h3 : prune_old_items (insertNewItem channel x) = insertNewItem channel x := by
        simp only [prune_old_items]
        rw [if_neg hg]
      have hlen : (channel.children.filter isItem).length ≤ MAX_VERSIONS - 1 := by
        rw [h2] at hg
        simp only [List.length_cons, not_lt] at hg
        omega
      rw [h3, h2, findall_item_eq_filter,
        List.take_of_length_le hlen]

theorem findIdx_eq_length_of_filter_nil (l : List Element) (h : l.filter isItem = []) :
    l.findIdx isItem = l.length := by
  induction l with
  | nil => rfl
  | cons c cs ih =>
    rw [List.filter_cons] at h
    by_cases hc : isItem c
    · simp [hc] at h
    · have hcf : isItem c = false := by simpa using hc
      rw [if_neg (by simp [hcf])] at h
      simp [List.findIdx_cons, hcf, ih h]

/-- With no existing item, the new item is appended as the sole added
child and pruning does nothing. -/
theorem children_append_step (channel x : Element) (hx : isItem x = true)
    (hnil : channel.findall "item" = []) :
    (prune_old_items (insertNewItem channel x)).children
      = channel.children ++ [x] := by
  have he : (channel.findall "item").isEmpty = true := by rw [hnil]; rfl
  have hstep : insertNewItem channel x = channel.withChildren (channel.children ++ [x]) := by
    rw [insertNewItem, if_pos he]
  have hitems1 : (insertNewItem channel x).findall "item" = [x] := by
    rw [hstep, findall_item_eq_filter, children_withChildren, List.filter_append]
    rw [findall_item_eq_filter] at hnil
    simp [hnil, List.filter_cons, hx]
  have h3 : prune_old_items (insertNewItem channel x) = insertNewItem channel x := by
    simp [prune_old_items, hitems1, MAX_VERSIONS]
  rw [h3, hstep, children_withChildren]

/-- Pruning after insertion removes only item children. -/
theorem children_filter_not_item_step (channel x : Element) (hx : isItem x = true) :
    (prune_old_items (insertNewItem channel x)).children.filter (fun c => !(isItem c))
      = channel.children.filter (fun c => !(isItem c)) := by
  have h2 : (insertNewItem channel x).children.filter (fun c => !(isItem c))
      = channel.children.filter (fun c => !(isItem c)) := by
    rw [insertNewItem]
    split
    · rw [children_withChildren, List.filter_append]
      simp [List.filter_cons, hx]
    · rw [children_withChildren]
      exact filter_not_insertAt x channel.children _ hx
  simp only [prune_old_items]
  split
  · rw [children_withChildren, keepBudget_filter_not_item]
    exact h2
  · exact h2

/-- The updated children agree with the old children up to the insertion
position, and there the new item stands immediately before the
previously first item (when one exists). -/
theorem children_take_step (channel x : Element) (hx : isItem x = true) :
    (prune_old_items (insertNewItem channel x)).children.take
        (channel.children.take (channel.children.findIdx isItem)
          ++ x :: (channel.findall "item").take 1).length
      = channel.children.take (channel.children.findIdx isItem)
        ++ x :: (channel.findall "item").take 1 := by
  rcases hitems : channel.findall "item" with _ | ⟨i0, restI⟩
  · have hidx : channel.children.findIdx isItem = channel.children.length :=
      findIdx_eq_length_of_filter_nil channel.children
        (by rw [← findall_item_eq_filter]; exact hitems)
    rw [children_append_step channel x hx hitems, hidx, List.take_length]
    simp
  · have hfil : channel.children.filter isItem = i0 :: restI := by
      rw [← findall_item_eq_filter]; exact hitems
    obtain ⟨a, b, hdec, hano, hidx, hbfil⟩ :=
      filter_eq_cons_decomp isItem channel.children i0 restI hfil
    have hi0 : isItem i0 = true := by
      have : i0 ∈ channel.children.filter isItem := by rw [hfil]; exact List.mem_cons_self i0 restI
      exact List.of_mem_filter this
    have hne : ¬(channel.findall "item").isEmpty = true := by
      rw [hitems]; simp
    have hstep : (insertNewItem channel x).children = a ++ x :: i0 :: b := by
      rw [insertNewItem, if_neg hne, children_withChildren, hidx]
      conv_lhs => rw [hdec]
      exact insertAt_length_append a x (i0 :: b)
    have hshape : ∃ t, (prune_old_items (insertNewItem channel x)).children
        = a ++ x :: i0 :: t := by
      simp only [prune_old_items]
      split
      · refine ⟨keepBudget 8 b, ?_⟩
        rw [children_withChildren, hstep,
          keepBudget_append_of_no_items a (x :: i0 :: b) MAX_VERSIONS
            (fun c hc => hano c hc),
          show (MAX_VERSIONS : Nat) = 9 + 1 from rfl,
          keepBudget_cons_item 9 x (i0 :: b) hx,
          show (9 : Nat) = 8 + 1 from rfl,
          keepBudget_cons_item 8 i0 b hi0]
      · exact ⟨b, hstep⟩
    obtain ⟨t, ht⟩ := hshape
    have htakea : channel.children.take (channel.children.findIdx isItem) = a := by
      rw [hidx]
      conv_lhs => rw [hdec]
      exact List.take_left a (i0 :: b)
    rw [ht, htakea]
    have h1 : List.take 1 (i0 :: restI) = [i0] := rfl
    rw [h1]
    have hlen : (a ++ x :: [i0]).length = a.length + 2 := by simp
    rw [hlen, List.take_append_eq_append_take,
      List.take_of_length_le (by omega : a.length ≤ a.length + 2),
      show a.length + 2 - a.length = 2 from by omega]
    rfl

/-- C1: for a channel with K items, one update makes the channel item
list the newly built item first, followed by the first min(K, 9)
previous items in their original relative order; consequently the item
count is K + 1 when K < 10 and exactly 10 when K is 10 or more (the
items past the ninth previous one, in particular the oldest on a
ten-item document, are removed). -/
theorem update_items_new_first (env : Env) (root : Element) (now : String)
    (config : ReleaseConfig) (channel : Element)
    (hcfg : load_config_from_env env = .ok config)
    (hch : root.find "channel" = some channel) :
    updatedItems env root now
      = some (create_release_item config now
          :: (channel.findall "item").take
              (min ((channel.findall "item").length) (MAX_VERSIONS - 1)))
    ∧ (create_release_item config now
          :: (channel.findall "item").take
              (min ((channel.findall "item").length) (MAX_VERSIONS - 1))).length
        = min ((channel.findall "item").length + 1) MAX_VERSIONS := by
  have htagch : channel.tag = "channel" := by
    have := List.find?_some hch
    simpa using this
  have htag3 : (prune_old_items (insertNewItem channel
      (create_release_item config now))).tag = "channel" := by
    rw [tag_prune_old_items, tag_insertNewItem, htagch]
  have hupd : update_appcast env root now
      = .ok (root.withChildren (replaceChannel root.children
          (prune_old_items (insertNewItem channel (create_release_item config now))))) := by
    simp [update_appcast, hcfg, hch]
  have hch2 : root.children.find? (fun c => c.tag = "channel") = some channel := hch
  have hfind : (root.withChildren (replaceChannel root.children
      (prune_old_items (insertNewItem channel (create_release_item config now))))).find
        "channel"
      = some (prune_old_items (insertNewItem channel (create_release_item config now))) := by
    rw [Element.find, children_withChildren]
    exact find_replaceChannel root.children channel _ hch2 htag3
  have hitems := inserted_pruned_items channel (create_release_item config now) rfl
  have htake : (channel.findall "item").take
      (min ((channel.findall "item").length) (MAX_VERSIONS - 1))
      = (channel.findall "item").take (MAX_VERSIONS - 1) := by
    rcases Nat.le_total ((channel.findall "item").length) (MAX_VERSIONS - 1) with hle | hle
    · rw [min_eq_left hle, List.take_length, List.take_of_length_le hle]
    · rw [min_eq_right hle]
  constructor
  · simp only [updatedItems, hupd, hfind, hitems, htake]
  · rw [htake, List.length_cons, List.length_take]
    have : MAX_VERSIONS - 1 + 1 = MAX_VERSIONS := by simp [MAX_VERSIONS]
    omega

theorem lineBoundary_isSpace (c : Char) (h : isLineBoundary c = true) :
    pyIsSpace c = true := by
  simp only [isLineBoundary, Bool.or_eq_true, decide_eq_true_eq] at h
  rcases h with (((((((((h | h) | h) | h) | h) | h) | h) | h) | h) | h) <;>
    subst h <;> decide

theorem pySplitLines_no_boundary (cs : List Char) :
    ∀ l ∈ pySplitLines cs, ∀ x ∈ l, isLineBoundary x = false := by
  induction cs using pySplitLines.induct with
  | case1 => simp [pySplitLines]
  | case2 c h => simp [pySplitLines, h]
  | case3 c h =>
    intro l hl x hx
    rw [pySplitLines, if_neg h] at hl
    simp only [List.mem_singleton] at hl
    subst hl
    simp only [List.mem_singleton] at hx
    subst hx
    simpa using h
  | case4 c d rest h ih =>
    intro l hl x hx
    rw [pySplitLines, if_pos h] at hl
    rcases List.mem_cons.mp hl with rfl | hl2
    · simp at hx
    · exact ih l hl2 x hx
  | case5 c d rest h1 h ih =>
    intro l hl x hx
    rw [pySplitLines, if_neg h1, if_pos h] at hl
    rcases List.mem_cons.mp hl with rfl | hl2
    · simp at hx
    · exact ih l hl2 x hx
  | case6 c d rest h1 h hm ih =>
    intro l hl x hx
    rw [pySplitLines, if_neg h1, if_neg h, hm] at hl
    simp only [List.mem_singleton] at hl
    subst hl
    simp only [List.mem_singleton] at hx
    subst hx
    simpa using h
  | case7 c d rest h1 h l0 ls hm ih =>
    intro l hl x hx
    rw [pySplitLines, if_neg h1, if_neg h, hm] at hl
    rcases List.mem_cons.mp hl with rfl | hl2
    · rcases List.mem_cons.mp hx with rfl | hx2
      · simpa using h
      · exact ih l0 (by rw [hm]; exact List.mem_cons_self l0 ls) x hx2
    · exact ih l (by rw [hm]; exact List.mem_cons_of_mem l0 hl2) x hx

theorem pySplitLines_ne_nil (cs : List Char) (h : cs ≠ []) : pySplitLines cs ≠ [] := by
  induction cs using pySplitLines.induct with
  | case1 => exact absurd rfl h
  | case2 c hb => rw [pySplitLines, if_pos hb]; simp
  | case3 c hb => rw [pySplitLines, if_neg hb]; simp
  | case4 c d rest hb ih => rw [pySplitLines, if_pos hb]; simp
  | case5 c d rest h1 hb ih => rw [pySplitLines, if_neg h1, if_pos hb]; simp
  | case6 c d rest h1 hb hm ih => rw [pySplitLines, if_neg h1, if_neg hb, hm]; simp
  | case7 c d rest h1 hb l0 ls hm ih => rw [pySplitLines, if_neg h1, if_neg hb, hm]; simp

/-- A boundary-free piece followed by a newline contributes exactly one
line. -/
theorem pySplitLines_append_newline (p rest : List Char)
    (hp : ∀ c ∈ p, isLineBoundary c = false) :
    pySplitLines (p ++ '\x0a' :: rest) = p :: pySplitLines rest := by
  induction p with
  | nil =>
    rcases rest with _ | ⟨d, r⟩
    · rfl
    · rw [List.nil_append, pySplitLines,
        if_neg (by intro hcd; exact absurd hcd.1 (by decide)),
        if_pos (by decide)]
  | cons c p2 ih =>
    have hc : isLineBoundary c = false := hp c (List.mem_cons_self c p2)
    have hrec := ih (fun e he => hp e (List.mem_cons_of_mem c he))
    rcases hp2 : p2 ++ '\x0a' :: rest with _ | ⟨d, r⟩
    · exact absurd hp2 (by simp)
    · rw [List.cons_append, hp2, pySplitLines,
        if_neg (by
          intro hcd
          rw [hcd.1] at hc
          exact absurd hc (by decide)),
        if_neg (by simp [hc]), ← hp2, hrec]

/-- A boundary-free nonempty string is a single line. -/
theorem pySplitLines_all_clean (p : List Char) (hp : ∀ c ∈ p, isLineBoundary c = false)
    (hne : p ≠ []) :
    pySplitLines p = [p] := by
  induction p with
  | nil => exact absurd rfl hne
  | cons c p2 ih =>
    have hc : isLineBoundary c = false := hp c (List.mem_cons_self c p2)
    rcases hp2 : p2 with _ | ⟨d, r⟩
    · rw [pySplitLines, if_neg (by simp [hc])]
    · subst hp2
      rw [pySplitLines,
        if_neg (by
          intro hcd
          rw [hcd.1] at hc
          exact absurd hc (by decide)),
        if_neg (by simp [hc]),
        ih (fun e he => hp e (List.mem_cons_of_mem c he)) (by simp)]

/-- Splitting the rejoined stripped lines recovers them exactly. -/
theorem pySplitLines_joinLines (qs : List (List Char))
    (h : ∀ q ∈ qs, ∀ c ∈ q, isLineBoundary c = false) (hne : qs ≠ []) :
    pySplitLines (joinLines qs ++ ['\x0a']) = qs := by
  induction qs with
  | nil => exact absurd rfl hne
  | cons q qs2 ih =>
    rcases hq2 : qs2 with _ | ⟨q2, qs3⟩
    · subst hq2
      have hj : joinLines [q] = q := rfl
      rw [hj, show (['\x0a'] : List Char) = '\x0a' :: [] from rfl,
        pySplitLines_append_newline q [] (h q (List.mem_cons_self q []))]
      rfl
    · subst hq2
      have hj : joinLines (q :: q2 :: qs3) = q ++ '\x0a' :: joinLines (q2 :: qs3) := rfl
      rw [hj, List.append_assoc, List.cons_append,
        pySplitLines_append_newline q _ (h q (List.mem_cons_self q (q2 :: qs3))),
        ih (fun e he c hc => h e (List.mem_cons_of_mem q he) c hc) (by simp)]

/-- A string whose last character is no boundary splits into lines of
which the last ends with that character. -/
theorem pySplitLines_ends (w : List Char) :
    ∀ cs z, w = cs ++ [z] → isLineBoundary z = false →
      ∃ ps p, pySplitLines w = ps ++ [p ++ [z]] := by
  induction w using pySplitLines.induct with
  | case1 =>
    intro cs z hw hz
    exact absurd hw (by simp)
  | case2 c hb =>
    intro cs z hw hz
    rcases cs with _ | ⟨c0, cs2⟩
    · simp only [List.nil_append, List.cons.injEq] at hw
      obtain ⟨rfl, -⟩ := hw
      simp [hb] at hz
    · exfalso
      simp at hw
  | case3 c hb =>
    intro cs z hw hz
    rcases cs with _ | ⟨c0, cs2⟩
    · simp only [List.nil_append, List.cons.injEq] at hw
      obtain ⟨rfl, -⟩ := hw
      exact ⟨[], [], by rw [pySplitLines, if_neg hb]; rfl⟩
    · exfalso
      simp at hw
  | case4 c d rest hcd ih =>
    intro cs z hw hz
    rcases cs with _ | ⟨c0, cs2⟩
    · simp at hw
    · rcases cs2 with _ | ⟨c1, cs3⟩
      · simp only [List.cons_append, List.nil_append, List.cons.injEq] at hw
        obtain ⟨-, hdz, -⟩ := hw
        have : isLineBoundary z = true := by rw [← hdz, hcd.2]; decide
        rw [this] at hz
        simp at hz
      · simp only [List.cons_append, List.cons.injEq] at hw
        obtain ⟨-, -, hrest⟩ := hw
        obtain ⟨ps, p, hps⟩ := ih cs3 z hrest hz
        exact ⟨[] :: ps, p, by rw [pySplitLines, if_pos hcd, hps]; rfl⟩
  | case5 c d rest h1 hb ih =>
    intro cs z hw hz
    rcases cs with _ | ⟨c0, cs2⟩
    · simp at hw
    · simp only [List.cons_append, List.cons.injEq] at hw
      obtain ⟨-, htail⟩ := hw
      obtain ⟨ps, p, hps⟩ := ih cs2 z htail hz
      exact ⟨[] :: ps, p, by rw [pySplitLines, if_neg h1, if_pos hb, hps]; rfl⟩
  | case6 c d rest h1 hb hm ih =>
    intro cs z hw hz
    exact absurd hm (pySplitLines_ne_nil (d :: rest) (by simp))
  | case7 c d rest h1 hb l0 ls hm ih =>
    intro cs z hw hz
    rcases cs with _ | ⟨c0, cs2⟩
    · simp at hw
    · simp only [List.cons_append, List.cons.injEq] at hw
      obtain ⟨-, htail⟩ := hw
      obtain ⟨ps, p, hps⟩ := ih cs2 z htail hz
      rw [hm] at hps
      rcases ps with _ | ⟨q, ps2⟩
      · simp only [List.nil_append, List.cons.injEq] at hps
        obtain ⟨hl0, hls⟩ := hps
        refine ⟨[], c :: p, ?_⟩
        rw [pySplitLines, if_neg h1, if_neg hb, hm, hl0, hls]
        simp
      · simp only [List.cons_append, List.cons.injEq] at hps
        obtain ⟨hl0, hls⟩ := hps
        refine ⟨(c :: q) :: ps2, p, ?_⟩
        rw [pySplitLines, if_neg h1, if_neg hb, hm, hl0, hls]
        simp

theorem dropWhile_idem (p : Char → Bool) (l : List Char) :
    (l.dropWhile p).dropWhile p = l.dropWhile p := by
  induction l with
  | nil => rfl
  | cons c cs ih =>
    by_cases hc : p c
    · simp [List.dropWhile_cons, hc, ih]
    · simp [List.dropWhile_cons, hc]

theorem pyRstrip_idem (l : List Char) : pyRstrip (pyRstrip l) = pyRstrip l := by
  rw [pyRstrip, pyRstrip, List.reverse_reverse, dropWhile_idem]

theorem mem_pyRstrip (l : List Char) (x : Char) (h : x ∈ pyRstrip l) : x ∈ l := by
  rw [pyRstrip, List.mem_reverse] at h
  exact List.mem_reverse.mp ((List.dropWhile_sublist _).mem h)

theorem pyRstrip_append_nonspace (p : List Char) (z : Char) (hz : pyIsSpace z = false) :
    pyRstrip (p ++ [z]) = p ++ [z] := by
  rw [pyRstrip, List.reverse_append]
  simp only [List.reverse_cons, List.reverse_nil, List.nil_append, List.singleton_append]
  rw [List.dropWhile_cons, if_neg (by simp [hz])]
  simp

theorem joinLines_ends (qs : List (List Char)) (q : List Char) :
    ∃ w, joinLines (qs ++ [q]) = w ++ q := by
  induction qs with
  | nil => exact ⟨[], rfl⟩
  | cons q0 qs2 ih =>
    rcases qs2 with _ | ⟨q1, qs3⟩
    · have h1 : joinLines ([q0] ++ [q]) = q0 ++ '\x0a' :: q := rfl
      exact ⟨q0 ++ ['\x0a'], by rw [h1]; simp⟩
    · obtain ⟨w, hw⟩ := ih
      refine ⟨q0 ++ '\x0a' :: w, ?_⟩
      show joinLines (q0 :: ((q1 :: qs3) ++ [q])) = (q0 ++ '\x0a' :: w) ++ q
      have h1 : joinLines (q0 :: ((q1 :: qs3) ++ [q]))
          = q0 ++ '\x0a' :: joinLines ((q1 :: qs3) ++ [q]) := rfl
      rw [h1, hw]
      simp

/-- C7: the content written after the post-processing pass has no
trailing whitespace on any line and ends with exactly one trailing
newline, whenever the serialized content the structural write produced is
nonempty and ends in a non-whitespace character.  The ElementTree
serialization always satisfies that hypothesis, since serialized XML ends
with the closing angle bracket of the root element. -/
theorem post_process_output_normalized (content : List Char) (z : Char)
    (hlast : content.getLast? = some z) (hz : pyIsSpace z = false) :
    noTrailingWS (postProcess content) = true
    ∧ endsWithOneNewline (postProcess content) = true := by
  obtain ⟨body, rfl⟩ : ∃ t, content = t ++ [z] := by
    rw [List.getLast?_eq_some_iff] at hlast
    exact hlast
  have hzb : isLineBoundary z = false := by
    cases hb : isLineBoundary z
    · rfl
    · rw [lineBoundary_isSpace z hb] at hz
      simp at hz
  obtain ⟨ps, p, hsplit⟩ := pySplitLines_ends (body ++ [z]) body z rfl hzb
  set pieces := pySplitLines (body ++ [z]) with hpieces
  have hbf : ∀ q ∈ pieces.map pyRstrip, ∀ c ∈ q, isLineBoundary c = false := by
    intro q hq c hc
    obtain ⟨piece, hpmem, rfl⟩ := List.mem_map.mp hq
    exact pySplitLines_no_boundary (body ++ [z]) piece hpmem c (mem_pyRstrip piece c hc)
  have hne : pieces.map pyRstrip ≠ [] := by
    have hpn : pieces ≠ [] := pySplitLines_ne_nil _ (by simp)
    simpa using hpn
  have hout : pySplitLines (postProcess (body ++ [z])) = pieces.map pyRstrip := by
    rw [postProcess]
    exact pySplitLines_joinLines (pieces.map pyRstrip) hbf hne
  constructor
  · rw [noTrailingWS, hout, List.all_eq_true]
    intro q hq
    obtain ⟨piece, hpmem, rfl⟩ := List.mem_map.mp hq
    rw [beq_iff_eq]
    exact pyRstrip_idem piece
  · have hmap : pieces.map pyRstrip = ps.map pyRstrip ++ [p ++ [z]] := by
      rw [hsplit, List.map_append]
      simp [pyRstrip_append_nonspace p z hz]
    obtain ⟨w, hw⟩ := joinLines_ends (ps.map pyRstrip) (p ++ [z])
    have hpp : postProcess (body ++ [z]) = (w ++ (p ++ [z])) ++ ['\x0a'] := by
      rw [postProcess, hmap, hw]
    have hzn : ¬(z = '\x0a') := by
      intro he
      rw [he] at hz
      exact absurd hz (by decide)
    rw [endsWithOneNewline, hpp]
    have hrev : ((w ++ (p ++ [z])) ++ ['\x0a']).reverse
        = '\x0a' :: (z :: (p.reverse ++ w.reverse)) := by
      simp [List.reverse_append]
    rw [hrev]
    simp [hzn]

/-- Witness for C7: a concrete serialized document. -/
theorem post_process_output_normalized_witness :
    noTrailingWS (postProcess "<rss>\x0a <item>ok</item> \x0a</rss>".data) = true
    ∧ endsWithOneNewline (postProcess "<rss>\x0a <item>ok</item> \x0a</rss>".data) = true :=
  post_process_output_normalized "<rss>\x0a <item>ok</item> \x0a</rss>".data '>'
    (by decide) (by decide)

/-- Witness for C1: updating the two-item document yields the new item
followed by both old items. -/
theorem update_items_new_first_witness :
    updatedItems envRequiredOnly rootTwo "Sun, 12 Oct 2026 00:00:00 +0000"
      = some (create_release_item cfgRequiredOnly "Sun, 12 Oct 2026 00:00:00 +0000"
          :: (channelTwo.findall "item").take
              (min ((channelTwo.findall "item").length) (MAX_VERSIONS - 1)))
    ∧ (create_release_item cfgRequiredOnly "Sun, 12 Oct 2026 00:00:00 +0000"
          :: (channelTwo.findall "item").take
              (min ((channelTwo.findall "item").length) (MAX_VERSIONS - 1))).length
        = min ((channelTwo.findall "item").length + 1) MAX_VERSIONS :=
  update_items_new_first envRequiredOnly rootTwo "Sun, 12 Oct 2026 00:00:00 +0000"
    cfgRequiredOnly channelTwo rfl rfl

/-- C9: one update leaves the non-item children of the channel exactly as
they were and in their original relative positions: the updated children
agree with the old children on the whole segment before the first item,
the new item is placed there immediately before the previously first item
when items exist, the new item is appended as the sole added child when
no item exists, and pruning removes only item elements (the non-item
children survive unchanged also through the pruning step). -/
theorem update_preserves_non_items (env : Env) (root : Element) (now : String)
    (config : ReleaseConfig) (channel : Element)
    (hcfg : load_config_from_env env = .ok config)
    (hch : root.find "channel" = some channel) :
    (updatedChannel env root now).map
        (fun ch => ch.children.filter (fun c => !(isItem c)))
      = some (channel.children.filter (fun c => !(isItem c)))
    ∧ (updatedChannel env root now).map
        (fun ch => ch.children.take
          (channel.children.take (channel.children.findIdx isItem)
            ++ create_release_item config now :: (channel.findall "item").take 1).length)
      = some (channel.children.take (channel.children.findIdx isItem)
          ++ create_release_item config now :: (channel.findall "item").take 1)
    ∧ (channel.findall "item" = [] →
        (updatedChannel env root now).map Element.children
          = some (channel.children ++ [create_release_item config now])) := by
  have htagch : channel.tag = "channel" := by
    have := List.find?_some hch
    simpa using this
  have htag3 : (prune_old_items (insertNewItem channel
      (create_release_item config now))).tag = "channel" := by
    rw [tag_prune_old_items, tag_insertNewItem, htagch]
  have hupd : update_appcast env root now
      = .ok (root.withChildren (replaceChannel root.children
          (prune_old_items (insertNewItem channel (create_release_item config now))))) := by
    simp [update_appcast, hcfg, hch]
  have hch2 : root.children.find? (fun c => c.tag = "channel") = some channel := hch
  have hfind : (root.withChildren (replaceChannel root.children
      (prune_old_items (insertNewItem channel (create_release_item config now))))).find
        "channel"
      = some (prune_old_items (insertNewItem channel (create_release_item config now))) := by
    rw [Element.find, children_withChildren]
    exact find_replaceChannel root.children channel _ hch2 htag3
  have hchan : updatedChannel env root now
      = some (prune_old_items (insertNewItem channel (create_release_item config now))) := by
    simp only [updatedChannel, hupd, hfind]
  refine ⟨?_, ?_, ?_⟩
  · rw [hchan]
    exact congrArg some (children_filter_not_item_step channel _ rfl)
  · rw [hchan]
    exact congrArg some (children_take_step channel _ rfl)
  · intro hnil
    rw [hchan]
    exact congrArg some (children_append_step channel _ rfl hnil)

/-- Witness for C9: the two-item document with leading and trailing
channel metadata. -/
theorem update_preserves_non_items_witness :
    (updatedChannel envRequiredOnly rootTwo "Sun, 12 Oct 2026 00:00:00 +0000").map
        (fun ch => ch.children.filter (fun c => !(isItem c)))
      = some (channelTwo.children.filter (fun c => !(isItem c)))
    ∧ (updatedChannel envRequiredOnly rootTwo "Sun, 12 Oct 2026 00:00:00 +0000").map
        (fun ch => ch.children.take
          (channelTwo.children.take (channelTwo.children.findIdx isItem)
            ++ create_release_item cfgRequiredOnly "Sun, 12 Oct 2026 00:00:00 +0000"
              :: (channelTwo.findall "item").take 1).length)
      = some (channelTwo.children.take (channelTwo.children.findIdx isItem)
          ++ create_release_item cfgRequiredOnly "Sun, 12 Oct 2026 00:00:00 +0000"
            :: (channelTwo.findall "item").take 1)
    ∧ (channelTwo.findall "item" = [] →
        (updatedChannel envRequiredOnly rootTwo "Sun, 12 Oct 2026 00:00:00 +0000").map
            Element.children
          = some (channelTwo.children
              ++ [create_release_item cfgRequiredOnly "Sun, 12 Oct 2026 00:00:00 +0000"])) :=
  update_preserves_non_items envRequiredOnly rootTwo "Sun, 12 Oct 2026 00:00:00 +0000"
    cfgRequiredOnly channelTwo rfl rfl

/-! ## Claim theorems: configuration and item construction -/

/-- C2: if at least one of VERSION, BUILD_NUMBER, DOWNLOAD_URL is unset,
update_appcast fails with the configuration error naming a missing key,
and the message is the exact formatted string.  The document root and
clock are universally quantified and unused by the result: the
configuration step aborts before any file operation, so the appcast file
is neither read nor modified (an error result performs no write). -/
theorem update_missing_env_aborts (env : Env) (root : Element) (now : String)
    (h : env "VERSION" = none ∨ env "BUILD_NUMBER" = none ∨ env "DOWNLOAD_URL" = none) :
    ∃ key, env key = none
      ∧ update_appcast env root now = .error (.missingEnv key)
      ∧ (AppcastError.missingEnv key).message
          = "Missing required environment variable: " ++ key := by
  match hV : env "VERSION" with
  | none =>
    exact ⟨"VERSION", hV, by simp [update_appcast, load_config_from_env, hV], rfl⟩
  | some v =>
    match hB : env "BUILD_NUMBER" with
    | none =>
      exact ⟨"BUILD_NUMBER", hB, by simp [update_appcast, load_config_from_env, hV, hB], rfl⟩
    | some b =>
      match hD : env "DOWNLOAD_URL" with
      | none =>
        exact ⟨"DOWNLOAD_URL", hD,
          by simp [update_appcast, load_config_from_env, hV, hB, hD], rfl⟩
      | some d =>
        rcases h with h | h | h <;> simp_all

/-- Witness for C2: the concrete environment missing BUILD_NUMBER. -/
theorem update_missing_env_aborts_witness :
    ∃ key, envMissingBuild key = none
      ∧ update_appcast envMissingBuild rootTwo "Sun, 12 Oct 2026 00:00:00 +0000"
          = .error (.missingEnv key)
      ∧ (AppcastError.missingEnv key).message
          = "Missing required environment variable: " ++ key :=
  update_missing_env_aborts envMissingBuild rootTwo "Sun, 12 Oct 2026 00:00:00 +0000"
    (by right; left; rfl)

/-- C3: the item built by create_release_item carries the build number in
the namespaced sparkle version child and the version string in the
sparkle shortVersionString child, for every configuration and clock; in
particular the two are never swapped. -/
theorem release_item_version_fields (c : ReleaseConfig) (now : String) :
    ((create_release_item c now).find (nsTag SPARKLE_NS "version")).map Element.text
      = some (some c.build_number)
    ∧ ((create_release_item c now).find (nsTag SPARKLE_NS "shortVersionString")).map Element.text
      = some (some c.version) :=
  ⟨rfl, rfl⟩

/-- Counterexample for C4: FILE_SIZE set to the string "-3" does not
parse as a non-negative integer, yet the loader succeeds, because the
code only applies the Python int conversion, which accepts signed
integers. -/
theorem file_size_negative_accepted :
    envNegSize "FILE_SIZE" = some "-3"
    ∧ parsesAsNonNegativeInteger "-3" = false
    ∧ load_config_from_env envNegSize
        = .ok { version := "1.0.0", build_number := "100",
                download_url := "https://example.com/a.zip", ed_signature := "",
                file_size := "-3", min_system_version := "15.6" } :=
  ⟨rfl, by decide, rfl⟩

/-- C4 as amended: with the required keys present, the loader fails with
the FILE_SIZE configuration error carrying the offending value exactly
when the value (default "0") is not accepted by the Python int parser;
signed values such as "-3" are accepted.  When FILE_SIZE is unset the
loaded file_size is "0".  The error message embeds the offending value. -/
theorem file_size_integer_check (env : Env) (v b d : String)
    (hv : env "VERSION" = some v) (hb : env "BUILD_NUMBER" = some b)
    (hd : env "DOWNLOAD_URL" = some d) :
    (load_config_from_env env = .error (.badFileSize ((env "FILE_SIZE").getD "0"))
        ↔ pyIntParsable ((env "FILE_SIZE").getD "0") = false)
    ∧ (env "FILE_SIZE" = none →
        load_config_from_env env
          = .ok { version := v, build_number := b, download_url := d,
                  ed_signature := (env "ED_SIGNATURE").getD "",
                  file_size := "0",
                  min_system_version := (env "MIN_SYSTEM_VERSION").getD "15.6" })
    ∧ (AppcastError.badFileSize ((env "FILE_SIZE").getD "0")).message
        = "FILE_SIZE must be a valid integer, got: "
            ++ pyReprStr ((env "FILE_SIZE").getD "0") := by
  refine ⟨?_, ?_, rfl⟩
  · cases hp : pyIntParsable ((env "FILE_SIZE").getD "0") <;>
      simp [load_config_from_env, hv, hb, hd, hp]
  · intro hfs
    simp [load_config_from_env, hv, hb, hd, hfs, pyIntParsable_zero]

/-- Witness for C4: at the concrete environment with FILE_SIZE set to
"abc" the loader error is characterized by the parser rejecting "abc". -/
theorem file_size_integer_check_witness :
    (load_config_from_env envBadSize
        = .error (.badFileSize ((envBadSize "FILE_SIZE").getD "0"))
      ↔ pyIntParsable ((envBadSize "FILE_SIZE").getD "0") = false)
    ∧ (envBadSize "FILE_SIZE" = none →
        load_config_from_env envBadSize
          = .ok { version := "1.0.0", build_number := "100",
                  download_url := "https://example.com/a.zip",
                  ed_signature := (envBadSize "ED_SIGNATURE").getD "",
                  file_size := "0",
                  min_system_version := (envBadSize "MIN_SYSTEM_VERSION").getD "15.6" })
    ∧ (AppcastError.badFileSize ((envBadSize "FILE_SIZE").getD "0")).message
        = "FILE_SIZE must be a valid integer, got: "
            ++ pyReprStr ((envBadSize "FILE_SIZE").getD "0") :=
  file_size_integer_check envBadSize "1.0.0" "100" "https://example.com/a.zip" rfl rfl rfl

/-- C5: the enclosure of the built item carries the namespaced signature
attribute exactly when the supplied signature is nonempty, with the exact
supplied value; an empty signature leaves the attribute absent from the
attribute dictionary rather than present with an empty value. -/
theorem enclosure_signature_iff_nonempty (c : ReleaseConfig) (now : String) :
    ((create_release_item c now).find "enclosure").map
        (fun e => e.attrib.lookup (nsTag SPARKLE_NS "edSignature"))
      = some (if c.ed_signature = "" then none else some c.ed_signature) := by
  by_cases h : c.ed_signature = ""
  · simp only [create_release_item]
    rw [if_pos h, if_pos h]
    rfl
  · simp only [create_release_item]
    rw [if_neg h, if_neg h]
    rfl

/-- Counterexample for C8: VERSION set to the empty string is accepted by
the loader, which returns a configuration whose version field is empty;
the claim that the loader cannot succeed there fails, because the lookup
of a set-but-empty environment variable raises no KeyError. -/
theorem loader_accepts_empty_version :
    envEmptyVersion "VERSION" = some ""
    ∧ load_config_from_env envEmptyVersion
        = .ok { version := "", build_number := "100",
                download_url := "https://example.com/a.zip", ed_signature := "",
                file_size := "0", min_system_version := "15.6" } :=
  ⟨rfl, rfl⟩

/-- C8 as amended: the loader checks presence only.  Whenever the three
required variables are set, to any strings including empty ones, and
FILE_SIZE (default "0") passes the integer check, the loader succeeds and
copies the values through unchanged; so the non-emptiness invariant holds
only when the supplied values are themselves non-empty. -/
theorem loader_checks_presence_only (env : Env) (v b d : String)
    (hv : env "VERSION" = some v) (hb : env "BUILD_NUMBER" = some b)
    (hd : env "DOWNLOAD_URL" = some d)
    (hp : pyIntParsable ((env "FILE_SIZE").getD "0") = true) :
    load_config_from_env env
      = .ok { version := v, build_number := b, download_url := d,
              ed_signature := (env "ED_SIGNATURE").getD "",
              file_size := (env "FILE_SIZE").getD "0",
              min_system_version := (env "MIN_SYSTEM_VERSION").getD "15.6" } :=
  load_config_required_present env v b d hv hb hd hp

/-- Witness for C8: the loader succeeds on the environment whose VERSION
is the empty string. -/
theorem loader_checks_presence_only_witness :
    load_config_from_env envEmptyVersion
      = .ok { version := "", build_number := "100",
              download_url := "https://example.com/a.zip",
              ed_signature := (envEmptyVersion "ED_SIGNATURE").getD "",
              file_size := (envEmptyVersion "FILE_SIZE").getD "0",
              min_system_version := (envEmptyVersion "MIN_SYSTEM_VERSION").getD "15.6" } :=
  loader_checks_presence_only envEmptyVersion "" "100" "https://example.com/a.zip"
    rfl rfl rfl (by decide)

/-- C6: when the configuration loads but the parsed document root has no
channel child, update_appcast fails with the structure error; since the
result is an error, the written document does not exist and the file on
disk stays unchanged. -/
theorem update_no_channel_structure_error (env : Env) (config : ReleaseConfig)
    (root : Element) (now : String)
    (hc : load_config_from_env env = .ok config)
    (hch : root.find "channel" = none) :
    update_appcast env root now = .error .noChannel := by
  simp [update_appcast, hc, hch]

/-- Witness for C6: a concrete root without a channel child. -/
theorem update_no_channel_structure_error_witness :
    update_appcast envRequiredOnly rootNoChannel "Sun, 12 Oct 2026 00:00:00 +0000"
      = .error .noChannel :=
  update_no_channel_structure_error envRequiredOnly cfgRequiredOnly rootNoChannel
    "Sun, 12 Oct 2026 00:00:00 +0000" rfl rfl

/-- C10: any FILE_SIZE string the Python int parser accepts, including
signed forms and forms with surrounding whitespace or grouping
underscores, is stored verbatim in the configuration and emitted verbatim
as the enclosure length attribute, not normalized to a canonical decimal
representation. -/
theorem file_size_stored_verbatim (env : Env) (v b d fs now : String)
    (hv : env "VERSION" = some v) (hb : env "BUILD_NUMBER" = some b)
    (hd : env "DOWNLOAD_URL" = some d) (hfs : env "FILE_SIZE" = some fs)
    (hp : pyIntParsable fs = true) :
    load_config_from_env env
      = .ok { version := v, build_number := b, download_url := d,
              ed_signature := (env "ED_SIGNATURE").getD "",
              file_size := fs,
              min_system_version := (env "MIN_SYSTEM_VERSION").getD "15.6" }
    ∧ ((create_release_item
          { version := v, build_number := b, download_url := d,
            ed_signature := (env "ED_SIGNATURE").getD "",
            file_size := fs,
            min_system_version := (env "MIN_SYSTEM_VERSION").getD "15.6" } now).find
          "enclosure").map (fun e => e.attrib.lookup "length")
      = some (some fs) := by
  constructor
  · have := load_config_required_present env v b d hv hb hd (by rw [hfs]; exact hp)
    rw [hfs] at this
    exact this
  · rfl

/-- Witness for C10: FILE_SIZE " +5 " (sign and surrounding whitespace)
is accepted and stored exactly as supplied. -/
theorem file_size_stored_verbatim_witness :
    load_config_from_env envFull
      = .ok { version := "2.0.0", build_number := "202601251201",
              download_url := "https://example.com/b.zip",
              ed_signature := (envFull "ED_SIGNATURE").getD "",
              file_size := " +5 ",
              min_system_version := (envFull "MIN_SYSTEM_VERSION").getD "15.6" }
    ∧ ((create_release_item
          { version := "2.0.0", build_number := "202601251201",
            download_url := "https://example.com/b.zip",
            ed_signature := (envFull "ED_SIGNATURE").getD "",
            file_size := " +5 ",
            min_system_version := (envFull "MIN_SYSTEM_VERSION").getD "15.6" }
          "Sun, 12 Oct 2026 00:00:00 +0000").find
          "enclosure").map (fun e => e.attrib.lookup "length")
      = some (some " +5 ") :=
  file_size_stored_verbatim envFull "2.0.0" "202601251201" "https://example.com/b.zip"
    " +5 " "Sun, 12 Oct 2026 00:00:00 +0000" rfl rfl rfl rfl (by decide)

end Appcast
